import Mathlib

/-!
Shallow embedding of the extractive text summarizer implemented in
`src/pages/tools/Reminders.tsx` (component `TextSummarizer`, function
`summarizeText`).  Strings are modelled as `List Char`; the JavaScript
number arithmetic on scores is modelled with `ℚ` (the only numeric
operations are integer sums, a `* 1.5` boost, one division, and the
comparison `index < sentences.length * 0.3`, all exactly representable).
JavaScript's stable `Array.prototype.sort` is modelled by Mathlib's
stable `List.insertionSort`.
-/

namespace TextSummarizer

/-- Character class of the sentence-splitting regex `/[.!?]+/`. -/
def isSentSep (c : Char) : Bool := c == '.' || c == '!' || c == '?'

/-- Whitespace, as matched by the `\s` class and by `String.prototype.trim`
(restricted to the ASCII whitespace characters; the claims under proof
never depend on the further Unicode space code points). -/
def isWS (c : Char) : Bool :=
  c == ' ' || c == '\t' || c == '\n' || c == '\r' || c == '\x0b' || c == '\x0c'

/-- Word characters, as matched by the `\w` class: `[A-Za-z0-9_]`. -/
def isWordChar (c : Char) : Bool := c.isAlpha || c.isDigit || c == '_'

/-- Auxiliary splitter: `mode = false` means we are collecting the current
fragment `cur` (held reversed); `mode = true` means the previous character
was a separator and further separators are absorbed into the same match of
the one-or-more regex. -/
def splitRunsAux (p : Char → Bool) : Bool → List Char → List Char → List (List Char)
  | false, cur, [] => [cur.reverse]
  | false, cur, c :: rest =>
      if p c then cur.reverse :: splitRunsAux p true [] rest
      else splitRunsAux p false (c :: cur) rest
  | true, _, [] => [[]]
  | true, _, c :: rest =>
      if p c then splitRunsAux p true [] rest
      else splitRunsAux p false [c] rest

/-- JavaScript `String.prototype.split` on a regex of the form
`/[class]+/`: fragments between maximal runs of characters of the class,
with an empty fragment at an end of the string that touches such a run. -/
def splitRuns (p : Char → Bool) (l : List Char) : List (List Char) :=
  splitRunsAux p false [] l

/-- JavaScript `String.prototype.trim`: drop leading and trailing
whitespace. -/
def myTrim (l : List Char) : List Char :=
  ((l.dropWhile isWS).reverse.dropWhile isWS).reverse

/-- The sentence pool: `inputText.split(/[.!?]+/).map(s => s.trim()).filter(s => s.length > 10)`. -/
def eligibleSentences (input : List Char) : List (List Char) :=
  ((splitRuns isSentSep input).map myTrim).filter (fun s => decide (10 < s.length))

/-- `c` lowercased and then sent through `.replace(/[^\w\s]/g, ' ')`. -/
def normChar (c : Char) : Char :=
  let d := c.toLower
  if isWordChar d || isWS d then d else ' '

/-- Tokenization used both for the document and for each sentence:
`.toLowerCase().replace(/[^\w\s]/g, ' ').split(/\s+/).filter(word => word.length > 3)`. -/
def tokenize (l : List Char) : List (List Char) :=
  (splitRuns isWS (l.map normChar)).filter (fun w => decide (3 < w.length))

/-- The frequency table `wordFreq`: the count a token obtained after the
`forEach` increment loop over the whole document's token list, with
`wordFreq.get(word) || 0` for absent tokens. -/
def wordFreq (input : List Char) (w : List Char) : ℕ :=
  (tokenize input).count w

/-- A scored sentence, the record built inside `sentences.map((sentence, index) => ...)`. -/
structure Scored where
  sentence : List Char
  score : ℚ
  index : ℕ
deriving Repr, DecidableEq

/-- Scoring of the sentence at position `i` of the pool of `total`
sentences: sum the document frequencies of the sentence's own tokens,
multiply by `1.5` when `index < sentences.length * 0.3`, then divide by
the sentence's token count (`score / sentenceWords.length || 0`; the
`0/0 = 0` convention of `ℚ` matches the `NaN`-to-`0` coercion of `|| 0`,
since a token-free sentence has raw score `0`). -/
def scoreSentence (input : List Char) (total : ℕ) (i : ℕ) (s : List Char) : Scored :=
  let sw := tokenize s
  let raw : ℕ := (sw.map (fun w => wordFreq input w)).sum
  let boosted : ℚ := if (i : ℚ) < (total : ℚ) * (3 / 10) then (raw : ℚ) * (3 / 2) else (raw : ℚ)
  { sentence := myTrim s ++ ['.'], score := boosted / (sw.length : ℚ), index := i }

/-- `sentenceScores`: the pool mapped with its 0-based position. -/
def sentenceScores (input : List Char) : List Scored :=
  (eligibleSentences input).mapIdx
    (fun i s => scoreSentence input (eligibleSentences input).length i s)

/-- Comparator of the first sort, `(a, b) => b.score - a.score`:
descending score. -/
def scoreGe (a b : Scored) : Prop := b.score ≤ a.score

instance : DecidableRel scoreGe := fun a b => inferInstanceAs (Decidable (b.score ≤ a.score))

/-- Comparator of the second sort, `(a, b) => a.index - b.index`:
ascending original index. -/
def idxLe (a b : Scored) : Prop := a.index ≤ b.index

instance : DecidableRel idxLe := fun a b => inferInstanceAs (Decidable (a.index ≤ b.index))

/-- `topSentences`: stable sort by descending score, take the first
`Math.min(summaryLength[0], sentences.length)`, stable sort the kept
entries back into ascending original index. -/
def topSentences (input : List Char) (k : ℕ) : List Scored :=
  List.insertionSort idxLe
    ((List.insertionSort scoreGe (sentenceScores input)).take
      (min k (eligibleSentences input).length))

/-- `summarizedText`: the kept sentences joined with single spaces. -/
def summarizedText (input : List Char) (k : ℕ) : List Char :=
  List.intercalate [' '] ((topSentences input k).map (fun e => e.sentence))

/-- The diagnostic set when the pool is empty. -/
def noValidMsg : List Char := "No valid sentences found for summarization.".data

/-- The fallback set when the joined text is the empty string. -/
def couldNotMsg : List Char := "Could not generate summary from the provided text.".data

/-- The `summary` state after one invocation of `summarizeText`, as a
function of the input text, the requested sentence count and the
previously displayed summary: an input that is empty after trimming
returns early (only a toast is shown) and leaves the state unchanged;
an empty pool sets the diagnostic; an empty joined text sets the
fallback; otherwise the joined text is stored. -/
def summarizeStep (input : List Char) (k : ℕ) (prev : List Char) : List Char :=
  if myTrim input = [] then prev
  else if eligibleSentences input = [] then noValidMsg
  else if summarizedText input k = [] then couldNotMsg
  else summarizedText input k

/-- Example document: three eligible sentences, the word alpha repeated in
each of them. -/
def doc3 : List Char :=
  "alpha beta gamma delta. alpha epsilon zeta counts. alpha theta iota kappa.".data

/-- Example document with a single eligible sentence. -/
def doc1 : List Char := "The quick brown foxes jumped over everything.".data

/-- Example document whose trim is nonempty but whose fragments are all of
trimmed length 10 or less. -/
def docNoSent : List Char := "... . !!".data

/-- Example document consisting only of whitespace. -/
def docWS : List Char := "   ".data

/-! ### Helper lemmas about trimming -/

theorem myTrim_eq_rdropWhile (l : List Char) :
    myTrim l = List.rdropWhile isWS (l.dropWhile isWS) := rfl

theorem dropWhile_myTrim (l : List Char) :
    (myTrim l).dropWhile isWS = myTrim l := by
  obtain ⟨pre, hpre⟩ :=
    List.dropWhile_suffix (l := (l.dropWhile isWS).reverse) isWS
  have hrev : myTrim l = ((l.dropWhile isWS).reverse.dropWhile isWS).reverse := rfl
  cases hB : ((l.dropWhile isWS).reverse.dropWhile isWS).reverse with
  | nil => rw [hrev, hB]; rfl
  | cons a t =>
    have hA : l.dropWhile isWS = a :: (t ++ pre.reverse) := by
      have h2 := congrArg List.reverse hpre
      rw [List.reverse_append, List.reverse_reverse] at h2
      rw [← h2, hB]
      simp
    have hane : l.dropWhile isWS ≠ [] := by rw [hA]; simp
    have ha : isWS a = false := by
      have h3 := List.head_dropWhile_not isWS l hane
      simp only [hA, List.head_cons] at h3
      exact h3
    rw [hrev, hB]
    exact List.dropWhile_cons_of_neg (by simp [ha])

theorem myTrim_idem (l : List Char) : myTrim (myTrim l) = myTrim l := by
  rw [myTrim_eq_rdropWhile (myTrim l), dropWhile_myTrim,
    myTrim_eq_rdropWhile l, List.rdropWhile_idempotent]

/-! ### Helper lemmas about the sentence pool and the scored list -/

theorem mem_eligible_length {input : List Char} {s : List Char}
    (h : s ∈ eligibleSentences input) : 10 < s.length := by
  have := (List.mem_filter.mp h).2
  simpa using this

theorem mem_eligible_trimmed {input : List Char} {s : List Char}
    (h : s ∈ eligibleSentences input) : myTrim s = s := by
  have h1 := (List.mem_filter.mp h).1
  obtain ⟨raw, _, hraw⟩ := List.mem_map.mp h1
  rw [← hraw, myTrim_idem]

theorem eligible_sublist (input : List Char) :
    List.Sublist (eligibleSentences input) ((splitRuns isSentSep input).map myTrim) :=
  List.filter_sublist _

theorem length_sentenceScores (input : List Char) :
    (sentenceScores input).length = (eligibleSentences input).length := by
  simp [sentenceScores]

theorem get_sentenceScores (input : List Char) (i : ℕ)
    (h : i < (sentenceScores input).length)
    (h' : i < (eligibleSentences input).length) :
    (sentenceScores input).get ⟨i, h⟩ =
      scoreSentence input (eligibleSentences input).length i
        ((eligibleSentences input).get ⟨i, h'⟩) := by
  simp [sentenceScores]

theorem length_topSentences (input : List Char) (k : ℕ) :
    (topSentences input k).length = min k (eligibleSentences input).length := by
  rw [topSentences, List.length_insertionSort, List.length_take,
    List.length_insertionSort, length_sentenceScores]
  omega

theorem mem_topSentences {input : List Char} {k : ℕ} {e : Scored}
    (h : e ∈ topSentences input k) : e ∈ sentenceScores input := by
  have h1 := (List.perm_insertionSort idxLe _).subset h
  have h2 := (List.take_sublist _ _).subset h1
  exact (List.perm_insertionSort scoreGe _).subset h2

theorem mem_sentenceScores {input : List Char} {e : Scored}
    (h : e ∈ sentenceScores input) :
    ∃ i, ∃ hi : i < (eligibleSentences input).length,
      e = scoreSentence input (eligibleSentences input).length i
        ((eligibleSentences input).get ⟨i, hi⟩) := by
  obtain ⟨i, hi, hei⟩ := List.exists_of_mem_mapIdx h
  exact ⟨i, hi, by simp [← hei]⟩

/-! ### Helper lemmas about the selection order -/

instance : IsTotal Scored idxLe := ⟨fun a b => Nat.le_total a.index b.index⟩

instance : IsTrans Scored idxLe := ⟨fun _ _ _ h1 h2 => Nat.le_trans h1 h2⟩

theorem map_index_sentenceScores (input : List Char) :
    (sentenceScores input).map (fun e => e.index) =
      List.range (eligibleSentences input).length := by
  apply List.ext_getElem
  · simp [sentenceScores]
  · intro i h1 h2
    simp [sentenceScores, scoreSentence]

theorem nodup_index_topSentences (input : List Char) (k : ℕ) :
    ((topSentences input k).map (fun e => e.index)).Nodup := by
  have h0 : ((sentenceScores input).map (fun e => e.index)).Nodup := by
    rw [map_index_sentenceScores]
    exact List.nodup_range _
  have h1 : ((List.insertionSort scoreGe (sentenceScores input)).map
      (fun e => e.index)).Nodup :=
    ((List.perm_insertionSort scoreGe _).map _).nodup_iff.mpr h0
  have h2 : (((List.insertionSort scoreGe (sentenceScores input)).take
      (min k (eligibleSentences input).length)).map (fun e => e.index)).Nodup := by
    rw [List.map_take]
    exact List.Nodup.sublist (List.take_sublist _ _) h1
  exact ((List.perm_insertionSort idxLe _).map _).nodup_iff.mpr h2

theorem sorted_index_topSentences (input : List Char) (k : ℕ) :
    ((topSentences input k).map (fun e => e.index)).Pairwise (· ≤ ·) := by
  have h1 : (topSentences input k).Pairwise idxLe :=
    List.sorted_insertionSort idxLe _
  exact List.pairwise_map.mpr h1

theorem lt_index_topSentences (input : List Char) (k : ℕ) :
    ((topSentences input k).map (fun e => e.index)).Pairwise (· < ·) := by
  have h1 := (sorted_index_topSentences input k).and (nodup_index_topSentences input k)
  exact h1.imp (fun h => lt_of_le_of_ne h.1 h.2)

/-! ### Bounds for the example documents -/

theorem doc3_scores_len : 0 < (sentenceScores doc3).length := by
  rw [length_sentenceScores]; decide

theorem doc3_pool_len : 0 < (eligibleSentences doc3).length := by decide

/-! ### Claims -/

/-- C1: the frequency table counts every token of the entire document
(lowercased, non-word and non-whitespace characters replaced by spaces,
split on whitespace, tokens of length at most 3 dropped); each eligible
sentence's score is the sum of the table's counts for the sentence's own
tokens, tokenized the same way, divided by the sentence's own token
count (carrying the multiplicative position factor governed by C3), and
a sentence with zero qualifying tokens gets score 0 rather than a
division error. -/
theorem c1_scoring (input : List Char) (i : ℕ)
    (h : i < (sentenceScores input).length)
    (h' : i < (eligibleSentences input).length) :
    ((sentenceScores input).get ⟨i, h⟩).score =
      (if (i : ℚ) < ((eligibleSentences input).length : ℚ) * (3 / 10)
        then (3 / 2 : ℚ) else 1) *
        ((((tokenize ((eligibleSentences input).get ⟨i, h'⟩)).map
            (fun w => wordFreq input w)).sum : ℚ) /
          ((tokenize ((eligibleSentences input).get ⟨i, h'⟩)).length : ℚ)) ∧
    (tokenize ((eligibleSentences input).get ⟨i, h'⟩) = [] →
      ((sentenceScores input).get ⟨i, h⟩).score = 0) := by
  rw [get_sentenceScores input i h h']
  constructor
  · simp only [scoreSentence]
    split_ifs with hc
    · ring
    · ring
  · intro hsw
    simp only [List.get_eq_getElem] at hsw ⊢
    simp [scoreSentence, hsw]

/-- Witness for C1 at `doc3`, index 0. -/
theorem c1_scoring_witness :
    ((sentenceScores doc3).get ⟨0, doc3_scores_len⟩).score =
      (if ((0 : ℕ) : ℚ) < ((eligibleSentences doc3).length : ℚ) * (3 / 10)
        then (3 / 2 : ℚ) else 1) *
        ((((tokenize ((eligibleSentences doc3).get ⟨0, doc3_pool_len⟩)).map
            (fun w => wordFreq doc3 w)).sum : ℚ) /
          ((tokenize ((eligibleSentences doc3).get ⟨0, doc3_pool_len⟩)).length : ℚ)) ∧
    (tokenize ((eligibleSentences doc3).get ⟨0, doc3_pool_len⟩) = [] →
      ((sentenceScores doc3).get ⟨0, doc3_scores_len⟩).score = 0) :=
  c1_scoring doc3 0 doc3_scores_len doc3_pool_len

/-- C2: the eligible pool is a subsequence, in original order, of the
trimmed fragments of the split on runs of sentence terminators; every
surviving fragment has trimmed length above 10; every trimmed fragment
of length above 10 survives; and the entry at position `i` of the scored
list is tagged with index `i`, an index over the surviving list. -/
theorem c2_pool (input : List Char) (i : ℕ)
    (h : i < (sentenceScores input).length)
    (h' : i < (eligibleSentences input).length) :
    List.Sublist (eligibleSentences input) ((splitRuns isSentSep input).map myTrim) ∧
    (∀ s ∈ eligibleSentences input, 10 < s.length) ∧
    (∀ s ∈ (splitRuns isSentSep input).map myTrim,
      10 < s.length → s ∈ eligibleSentences input) ∧
    ((sentenceScores input).get ⟨i, h⟩).index = i := by
  refine ⟨eligible_sublist input, fun s hs => mem_eligible_length hs, ?_, ?_⟩
  · intro s hs hlen
    exact List.mem_filter.mpr ⟨hs, by simpa using hlen⟩
  · rw [get_sentenceScores input i h h']
    simp [scoreSentence]

/-- Witness for C2 at `doc3`, index 0. -/
theorem c2_pool_witness :
    List.Sublist (eligibleSentences doc3) ((splitRuns isSentSep doc3).map myTrim) ∧
    (∀ s ∈ eligibleSentences doc3, 10 < s.length) ∧
    (∀ s ∈ (splitRuns isSentSep doc3).map myTrim,
      10 < s.length → s ∈ eligibleSentences doc3) ∧
    ((sentenceScores doc3).get ⟨0, doc3_scores_len⟩).index = 0 :=
  c2_pool doc3 0 doc3_scores_len doc3_pool_len

/-- C3, counterexample to the floor cutoff: `doc3` has exactly 3 eligible
sentences, so the claimed cutoff `floor(0.3 * 3) = 0` would leave every
sentence unboosted; but the code boosts index 0 (because `0 < 3 * 0.3`
holds without flooring): its stored score is `9/4`, not the unboosted
length-normalized value `3/2`. -/
theorem c3_counterexample :
    (eligibleSentences doc3).length = 3 ∧
    3 * (eligibleSentences doc3).length / 10 = 0 ∧
    ((sentenceScores doc3).get ⟨0, doc3_scores_len⟩).score = 9 / 4 ∧
    ((((tokenize ((eligibleSentences doc3).get ⟨0, doc3_pool_len⟩)).map
        (fun w => wordFreq doc3 w)).sum : ℚ) /
      ((tokenize ((eligibleSentences doc3).get ⟨0, doc3_pool_len⟩)).length : ℚ)) = 3 / 2 ∧
    (9 / 4 : ℚ) ≠ 3 / 2 := by
  have hget : (eligibleSentences doc3).get ⟨0, doc3_pool_len⟩ =
      "alpha beta gamma delta".data := by decide
  have hraw : ((tokenize "alpha beta gamma delta".data).map
      (fun w => wordFreq doc3 w)).sum = 6 := by decide
  have hswlen : (tokenize "alpha beta gamma delta".data).length = 4 := by decide
  have hn : (eligibleSentences doc3).length = 3 := by decide
  refine ⟨hn, by decide, ?_, ?_, by norm_num⟩
  · rw [get_sentenceScores doc3 0 doc3_scores_len doc3_pool_len, hget]
    simp only [scoreSentence, hraw, hswlen, hn]
    rw [if_pos (by norm_num)]
    norm_num
  · rw [hget, hraw, hswlen]
    norm_num

/-- C3 as amended: the position bonus multiplies the length-normalized
score by `3/2` exactly when `index < totalSentences * 0.3` holds as a
comparison of exact numbers, without flooring the cutoff (so with 3
sentences, index 0 is boosted because `0 < 0.9`); every other sentence's
score is the plain length-normalized value. -/
theorem c3_amended_boost (input : List Char) (i : ℕ)
    (h : i < (sentenceScores input).length)
    (h' : i < (eligibleSentences input).length) :
    (((i : ℚ) < ((eligibleSentences input).length : ℚ) * (3 / 10)) →
      ((sentenceScores input).get ⟨i, h⟩).score =
        (3 / 2 : ℚ) *
          ((((tokenize ((eligibleSentences input).get ⟨i, h'⟩)).map
              (fun w => wordFreq input w)).sum : ℚ) /
            ((tokenize ((eligibleSentences input).get ⟨i, h'⟩)).length : ℚ))) ∧
    (¬((i : ℚ) < ((eligibleSentences input).length : ℚ) * (3 / 10)) →
      ((sentenceScores input).get ⟨i, h⟩).score =
        (((tokenize ((eligibleSentences input).get ⟨i, h'⟩)).map
            (fun w => wordFreq input w)).sum : ℚ) /
          ((tokenize ((eligibleSentences input).get ⟨i, h'⟩)).length : ℚ)) := by
  rw [get_sentenceScores input i h h']
  constructor
  · intro hc
    simp only [scoreSentence]
    rw [if_pos hc]
    ring
  · intro hc
    simp only [scoreSentence]
    rw [if_neg hc]

/-- Witness for the amended C3 at `doc3`, index 0. -/
theorem c3_amended_boost_witness :
    (((0 : ℕ) : ℚ) < ((eligibleSentences doc3).length : ℚ) * (3 / 10) →
      ((sentenceScores doc3).get ⟨0, doc3_scores_len⟩).score =
        (3 / 2 : ℚ) *
          ((((tokenize ((eligibleSentences doc3).get ⟨0, doc3_pool_len⟩)).map
              (fun w => wordFreq doc3 w)).sum : ℚ) /
            ((tokenize ((eligibleSentences doc3).get ⟨0, doc3_pool_len⟩)).length : ℚ))) ∧
    (¬(((0 : ℕ) : ℚ) < ((eligibleSentences doc3).length : ℚ) * (3 / 10)) →
      ((sentenceScores doc3).get ⟨0, doc3_scores_len⟩).score =
        (((tokenize ((eligibleSentences doc3).get ⟨0, doc3_pool_len⟩)).map
            (fun w => wordFreq doc3 w)).sum : ℚ) /
          ((tokenize ((eligibleSentences doc3).get ⟨0, doc3_pool_len⟩)).length : ℚ)) :=
  c3_amended_boost doc3 0 doc3_scores_len doc3_pool_len

/-- C4: with at least one eligible sentence and a requested count of at
least 1, the selection holds exactly `min` of the requested count and the
pool size; a pool of exactly one eligible sentence is returned whole for
every such request. -/
theorem c4_count (input : List Char) (k : ℕ) (hk : 1 ≤ k)
    (hne : eligibleSentences input ≠ []) :
    (topSentences input k).length = min k (eligibleSentences input).length ∧
    ((eligibleSentences input).length = 1 →
      topSentences input k = sentenceScores input) := by
  refine ⟨length_topSentences input k, ?_⟩
  intro h1
  have hS : (sentenceScores input).length = 1 := by rw [length_sentenceScores, h1]
  obtain ⟨e, he⟩ := List.length_eq_one.mp hS
  rw [topSentences, he, h1]
  have hmin : min k 1 = 1 := by omega
  rw [hmin]
  simp [List.insertionSort, List.orderedInsert]

/-- Witness for C4 at `doc3` with a request of 1000 sentences. -/
theorem c4_count_witness :
    (topSentences doc3 1000).length = min 1000 (eligibleSentences doc3).length ∧
    ((eligibleSentences doc3).length = 1 →
      topSentences doc3 1000 = sentenceScores doc3) :=
  c4_count doc3 1000 (by norm_num) (by decide)

/-- C5: the indices of the selected sentences are strictly increasing in
the output, so the summary preserves the source order of the selected
sentences regardless of their score ranking. -/
theorem c5_source_order (input : List Char) (k : ℕ) :
    ((topSentences input k).map (fun e => e.index)).Pairwise (· < ·) :=
  lt_index_topSentences input k

/-- C6, counterexample to the empty-document half: on the empty document
the code returns early with a toast and leaves the previous summary in
place; it does not produce the no-valid-sentences diagnostic. -/
theorem c6_counterexample :
    summarizeStep "".data 3 "old summary".data = "old summary".data ∧
    "old summary".data ≠ noValidMsg := by
  constructor
  · decide
  · decide

/-- C6 as amended: a document whose trim is empty returns early and leaves
the summary unchanged (see C10); the no-valid-sentences diagnostic is set
exactly when the trim is nonempty but no fragment survives the
length cutoff, as with the document of short fragments; nothing throws,
the step function being total. -/
theorem c6_amended (input : List Char) (k : ℕ) (prev : List Char)
    (h1 : myTrim input ≠ []) (h2 : eligibleSentences input = []) :
    summarizeStep input k prev = noValidMsg := by
  simp only [summarizeStep]
  rw [if_neg h1, if_pos h2]

/-- Witness for the amended C6 at the short-fragment document. -/
theorem c6_amended_witness : summarizeStep docNoSent 3 [] = noValidMsg :=
  c6_amended docNoSent 3 [] (by decide) (by decide)

/-- C7, counterexample: a requested count of 0 is not treated as 1 — with
one eligible sentence the selection is empty and the fallback text is
stored instead of a one-sentence summary. -/
theorem c7_counterexample :
    eligibleSentences doc1 ≠ [] ∧
    (topSentences doc1 0).length = 0 ∧
    summarizeStep doc1 0 [] = couldNotMsg := by
  have hlen : (topSentences doc1 0).length = 0 := by
    rw [length_topSentences]; simp
  have hnil : topSentences doc1 0 = [] := List.length_eq_zero.mp hlen
  have htext : summarizedText doc1 0 = [] := by rw [summarizedText, hnil]; rfl
  refine ⟨by decide, hlen, ?_⟩
  simp only [summarizeStep]
  rw [if_neg (by decide : ¬(myTrim doc1 = [])),
    if_neg (by decide : ¬(eligibleSentences doc1 = [])), if_pos htext]

/-- C7 as amended: a requested count of 0 yields an empty selection and
the fallback could-not-generate text; the code performs no clamping of
counts below 1. -/
theorem c7_amended (input : List Char) (prev : List Char)
    (h1 : myTrim input ≠ []) (h2 : eligibleSentences input ≠ []) :
    (topSentences input 0).length = 0 ∧
    summarizeStep input 0 prev = couldNotMsg := by
  have hlen : (topSentences input 0).length = 0 := by
    rw [length_topSentences]; simp
  have hnil : topSentences input 0 = [] := List.length_eq_zero.mp hlen
  have htext : summarizedText input 0 = [] := by rw [summarizedText, hnil]; rfl
  refine ⟨hlen, ?_⟩
  simp only [summarizeStep]
  rw [if_neg h1, if_neg h2, if_pos htext]

/-- Witness for the amended C7 at `doc1`. -/
theorem c7_amended_witness :
    (topSentences doc1 0).length = 0 ∧
    summarizeStep doc1 0 [] = couldNotMsg :=
  c7_amended doc1 [] (by decide) (by decide)

/-- C8: the computation is a pure function of the document, the requested
count and the prior state; two calls on identical arguments produce
identical output text, with no randomness and no time dependence in the
model. -/
theorem c8_deterministic (d1 d2 : List Char) (k1 k2 : ℕ) (p1 p2 : List Char)
    (hd : d1 = d2) (hk : k1 = k2) (hp : p1 = p2) :
    summarizeStep d1 k1 p1 = summarizeStep d2 k2 p2 ∧
    summarizedText d1 k1 = summarizedText d2 k2 := by
  subst hd; subst hk; subst hp
  exact ⟨rfl, rfl⟩

/-- Witness for C8 at `doc3`. -/
theorem c8_deterministic_witness :
    summarizeStep doc3 2 [] = summarizeStep doc3 2 [] ∧
    summarizedText doc3 2 = summarizedText doc3 2 :=
  c8_deterministic doc3 doc3 2 2 [] [] rfl rfl rfl

/-- Lower bound used by the witness of C9. -/
theorem doc1_top_len : 0 < (topSentences doc1 1).length := by
  rw [length_topSentences]; decide

/-- C9: every selected entry carries the pool fragment at its own index
with exactly one period appended, that fragment is one of the trimmed
fragments of the split, and the selected indices are strictly increasing,
so the summary is a duplicate-free subsequence of the eligible pool. -/
theorem c9_extractive (input : List Char) (k : ℕ) (e : Scored)
    (he : e ∈ topSentences input k) :
    ((topSentences input k).map (fun x => x.index)).Pairwise (· < ·) ∧
    ∃ hi : e.index < (eligibleSentences input).length,
      e.sentence = (eligibleSentences input).get ⟨e.index, hi⟩ ++ ['.'] ∧
      (eligibleSentences input).get ⟨e.index, hi⟩ ∈
        (splitRuns isSentSep input).map myTrim := by
  refine ⟨lt_index_topSentences input k, ?_⟩
  obtain ⟨i, hi, hei⟩ := mem_sentenceScores (mem_topSentences he)
  have hidx : e.index = i := by rw [hei]; simp [scoreSentence]
  have h1 : e.sentence = (eligibleSentences input).get ⟨i, hi⟩ ++ ['.'] := by
    rw [hei]
    simp only [scoreSentence]
    rw [mem_eligible_trimmed (List.get_mem _ _ _)]
  have h2 : (eligibleSentences input).get ⟨i, hi⟩ ∈
      (splitRuns isSentSep input).map myTrim :=
    (eligible_sublist input).subset (List.get_mem _ _ _)
  simp only [hidx]
  exact ⟨hi, h1, h2⟩

/-- Witness for C9 at `doc1` with one requested sentence. -/
theorem c9_extractive_witness :
    ((topSentences doc1 1).map (fun x => x.index)).Pairwise (· < ·) ∧
    ∃ hi : ((topSentences doc1 1).get ⟨0, doc1_top_len⟩).index <
        (eligibleSentences doc1).length,
      ((topSentences doc1 1).get ⟨0, doc1_top_len⟩).sentence =
        (eligibleSentences doc1).get
          ⟨((topSentences doc1 1).get ⟨0, doc1_top_len⟩).index, hi⟩ ++ ['.'] ∧
      (eligibleSentences doc1).get
          ⟨((topSentences doc1 1).get ⟨0, doc1_top_len⟩).index, hi⟩ ∈
        (splitRuns isSentSep doc1).map myTrim :=
  c9_extractive doc1 1 _ (List.get_mem _ _ _)

/-- C10: when the input is empty after trimming, the step returns before
running the algorithm: the previously displayed summary is kept, and in
particular neither the diagnostic nor an empty text replaces it. -/
theorem c10_empty_input_frame (input : List Char) (k : ℕ) (prev : List Char)
    (h : myTrim input = []) : summarizeStep input k prev = prev := by
  simp only [summarizeStep]
  rw [if_pos h]

/-- Witness for C10 on the all-whitespace document. -/
theorem c10_empty_input_frame_witness :
    summarizeStep docWS 3 "previous summary".data = "previous summary".data ∧
    "previous summary".data ≠ noValidMsg :=
  ⟨c10_empty_input_frame docWS 3 "previous summary".data (by decide), by decide⟩

end TextSummarizer
